import Mathlib

/-!
Verification development for `ai_diffusion/custom_workflow.py`.

Shallow embedding: Python runtime values are a closed tagged union `Value`
(the kinds the subsystem manipulates: None, bool, int, str); Python dicts
are association lists with insertion-order update semantics; exceptions are
`Option` results; Qt model signals are an explicit `Notif` value.
-/

set_option autoImplicit false

namespace AiDiffusion

/-- A Python runtime value, restricted to the kinds the subsystem manipulates.
`Value.none` is Python `None`. -/
inductive Value where
  | none : Value
  | bool (b : Bool) : Value
  | int (n : Int) : Value
  | str (s : String) : Value
  deriving DecidableEq

/-- A Python runtime type tag, as compared by `type(x) == type(y)`.
Note Python treats `bool` and `int` as distinct types under `type(..) ==`. -/
inductive PyType where
  | noneT : PyType
  | boolT : PyType
  | intT : PyType
  | strT : PyType
  deriving DecidableEq

/-- `type(v)` for a `Value`. -/
def vkind : Value → PyType
  | Value.none => PyType.noneT
  | Value.bool _ => PyType.boolT
  | Value.int _ => PyType.intT
  | Value.str _ => PyType.strT

/-- `WorkflowSource` enum from the source: document = 0, remote = 1, local = 2. -/
inductive WorkflowSource where
  | document : WorkflowSource
  | remote : WorkflowSource
  | local : WorkflowSource
  deriving DecidableEq

/-- The `.value` of each `WorkflowSource` enum member. -/
def WorkflowSource.value : WorkflowSource → Nat
  | WorkflowSource.document => 0
  | WorkflowSource.remote => 1
  | WorkflowSource.local => 2

/-- The `CustomWorkflow` dataclass: id, source, raw graph payload, optional path
(defaulting to `None`). -/
structure CustomWorkflow where
  id : String
  source : WorkflowSource
  graph : Value
  path : Option String := Option.none
  deriving DecidableEq

/-- Python `s.removesuffix(suf)`: drop the suffix when present, else return
the string unchanged. -/
def removesuffix (s suf : String) : String :=
  let cs := s.data
  let n := cs.length
  let m := suf.data.length
  if m ≤ n ∧ cs.drop (n - m) = suf.data then String.mk (cs.take (n - m)) else s

/-- `CustomWorkflow.name`: `self.id.removesuffix(".json")`. -/
def CustomWorkflow.name (w : CustomWorkflow) : String :=
  removesuffix w.id ".json"

/-- `WorkflowCollection.find_index`: index of the first entry with the given id,
`Option.none` standing for the invalid `QModelIndex()`. -/
def find_index : List CustomWorkflow → String → Option Nat
  | [], _ => Option.none
  | w :: ws, i => if w.id = i then some 0 else (find_index ws i).map (fun n => n + 1)

/-- `WorkflowCollection.set_graph`: `self._workflows[index.row()].graph = graph`,
an in-place update of the entry at the given row that touches only `graph`
(callers always pass a row produced by a valid `find_index` result). -/
def set_graph : List CustomWorkflow → Nat → Value → List CustomWorkflow
  | [], _, _ => []
  | w :: ws, 0, g => { w with graph := g } :: ws
  | w :: ws, i + 1, g => w :: set_graph ws i g

/-- A Qt model notification: `dataChanged` at a row, or `rowsInserted` at a row. -/
inductive Notif where
  | changed (row : Nat) : Notif
  | inserted (row : Nat) : Notif
  deriving DecidableEq

/-- `WorkflowCollection._process`: if the id is already present, replace that
entry's graph (emitting `dataChanged` at its row), else append (emitting
`rowsInserted` at the new row). -/
def _process (l : List CustomWorkflow) (w : CustomWorkflow) : List CustomWorkflow × Notif :=
  match find_index l w.id with
  | some i => (set_graph l i w.graph, Notif.changed i)
  | Option.none => (l ++ [w], Notif.inserted l.length)

/-- Python string `<` on code-point lists: lexicographic, a strict prefix is
smaller. -/
def charsLt : List Char → List Char → Bool
  | [], [] => false
  | [], _ :: _ => true
  | _ :: _, [] => false
  | c :: cs, d :: ds =>
    if c.toNat < d.toNat then true
    else if d.toNat < c.toNat then false
    else charsLt cs ds

/-- Python string `<`: lexicographic comparison by Unicode code point. -/
def pyStrLt (a b : String) : Bool :=
  charsLt a.data b.data

/-- `SortedWorkflows.lessThan`: compare by source first (when sources differ,
by enum value ascending), else by `name` with Python string `<`
(code-point lexicographic, case sensitive). -/
def lessThan (l r : CustomWorkflow) : Bool :=
  if l.source = r.source then pyStrLt l.name r.name
  else decide (l.source.value < r.source.value)

/-- `ParamKind` enum. -/
inductive ParamKind where
  | image_layer : ParamKind
  | mask_layer : ParamKind
  | number_int : ParamKind
  deriving DecidableEq

/-- The `CustomParam` named tuple; `default`, `min`, `max` default to `None`. -/
structure CustomParam where
  kind : ParamKind
  name : Value
  default : Value := Value.none
  min : Value := Value.none
  max : Value := Value.none
  deriving DecidableEq

/-- A node of a parsed graph: a type tag and keyed inputs. -/
structure Node where
  type : String
  inputs : List (String × Value)
  deriving DecidableEq

/-- Keyed lookup in a node's inputs. -/
def getInput : List (String × Value) → String → Option Value
  | [], _ => Option.none
  | p :: ps, k => if p.1 = k then some p.2 else getInput ps k

/-- `node.input(key, default)`: stored value if the key is present, else the default. -/
def Node.input (n : Node) (k : String) (d : Value) : Value :=
  match getInput n.inputs k with
  | some v => v
  | Option.none => d

/-- `_gather_params`: traverse nodes in order; recognized node types each yield
one `CustomParam`, all other types yield nothing. -/
def _gather_params : List Node → List CustomParam
  | [] => []
  | n :: ns =>
    (if n.type = "ETN_KritaImageLayer" then
      [{ kind := ParamKind.image_layer, name := n.input "name" (Value.str "Image") }]
    else if n.type = "ETN_KritaMaskLayer" then
      [{ kind := ParamKind.mask_layer, name := n.input "name" (Value.str "Mask") }]
    else if n.type = "ETN_IntParameter" then
      [{ kind := ParamKind.number_int, name := n.input "name" (Value.str "Parameter"),
         default := n.input "default" (Value.int 0),
         min := n.input "min" (Value.int (-(2 ^ 31))),
         max := n.input "max" (Value.int (2 ^ 31)) }]
    else []) ++ _gather_params ns

/-- Python dict lookup (`d.get(k)` is `(dictGet d k).getD Value.none`). -/
def dictGet : List (Value × Value) → Value → Option Value
  | [], _ => Option.none
  | p :: ps, k => if p.1 = k then some p.2 else dictGet ps k

/-- Python dict assignment: update an existing key in place (keeping its
position), else append the new pair at the end. -/
def dictSet : List (Value × Value) → Value → Value → List (Value × Value)
  | [], k, v => [(k, v)]
  | p :: ps, k, v => if p.1 = k then (k, v) :: ps else p :: dictSet ps k v

/-- The nested `use` helper of `_coerce`:
`if value is None or not type(value) == type(default): return default; return value`. -/
def use (v : Value) (d : Value) : Value :=
  if v = Value.none ∨ vkind v ≠ vkind d then d else v

/-- `_coerce(params, types)`: the dict comprehension
`\x7bt.name: use(params.get(t.name), t.default) for t in types\x7d`. -/
def _coerce (params : List (Value × Value)) (types : List CustomParam) : List (Value × Value) :=
  types.foldl (fun d t => dictSet d t.name (use ((dictGet params t.name).getD Value.none) t.default)) []

/-- The observable state of `CustomWorkspace`: the selected id, the resolved
workflow and graph (absent when unresolved), the derived metadata and the
current parameter values. Initial state: empty id, nothing resolved. -/
structure CustomWorkspace where
  workflow_id : String := ""
  workflow : Option CustomWorkflow := Option.none
  graph : Option (List Node) := Option.none
  metadata : List CustomParam := []
  params : List (Value × Value) := []
  deriving DecidableEq

/-- Python list indexing `l[i]` with negative-index wraparound;
`Option.none` is an `IndexError`. -/
def pyGet (l : List CustomWorkflow) (i : Int) : Option CustomWorkflow :=
  let j : Int := if i < 0 then (l.length : Int) + i else i
  if 0 ≤ j then l.get? j.toNat else Option.none

/-- `find_index(id).row()`: the row of the first matching entry, or `-1` for
the invalid `QModelIndex()`. -/
def rowOf (l : List CustomWorkflow) (i : String) : Int :=
  match find_index l i with
  | some n => (n : Int)
  | Option.none => -1

/-- `CustomWorkspace._update_workflow`: reads `self._workflows[idx.row()]`
(Python indexing, so an invalid index reads row `-1`); when the entry's id
matches the selected id, re-resolves the workflow, graph, metadata and params.
`parse` stands for `ComfyWorkflow.import_graph`. `Option.none` is an
uncaught `IndexError`. -/
def _update_workflow (parse : Value → List Node) (ws : CustomWorkspace)
    (cols : List CustomWorkflow) (row : Int) : Option CustomWorkspace :=
  match pyGet cols row with
  | Option.none => Option.none
  | some wf =>
    if wf.id = ws.workflow_id then
      let g := parse wf.graph
      let md := _gather_params g
      some { ws with workflow := some wf, graph := some g,
                     metadata := md, params := _coerce ws.params md }
    else some ws

/-- `CustomWorkspace._set_workflow_id` (the `select` operation): no-op when the
id equals the current selection, else record the new id and run
`_update_workflow` at the row `find_index` found (`-1` when absent). -/
def _set_workflow_id (parse : Value → List Node) (ws : CustomWorkspace)
    (cols : List CustomWorkflow) (i : String) : Option CustomWorkspace :=
  if ws.workflow_id = i then some ws
  else _update_workflow parse { ws with workflow_id := i } cols (rowOf cols i)

/-- An ingestion operation reaching the Collection: a successfully parsed local
file (`WorkflowCollection._process_file`), a remote publication
(`WorkflowCollection._process_remote_workflow`), or a document bind
(`CustomWorkspace.set_graph`). -/
inductive Op where
  | file (stem : String) (graph : Value) : Op
  | remote (id : String) (graph : Value) : Op
  | bindDoc (id : String) (graph : Value) : Op
  deriving DecidableEq

/-- The Collection mutation performed by each ingestion operation. Local files
and remote publications go through `_process`; a document bind appends only
when the id is absent (`CustomWorkspace.set_graph`). -/
def stepOp (l : List CustomWorkflow) : Op → List CustomWorkflow
  | Op.file s g => (_process l { id := s, source := WorkflowSource.local, graph := g }).1
  | Op.remote i g => (_process l { id := i, source := WorkflowSource.remote, graph := g }).1
  | Op.bindDoc i g =>
    match find_index l i with
    | Option.none => l ++ [{ id := i, source := WorkflowSource.document, graph := g }]
    | some _ => l

/-- The workflow id an operation carries. -/
def opId : Op → String
  | Op.file s _ => s
  | Op.remote i _ => i
  | Op.bindDoc i _ => i

/-- The Collection contents after a sequence of ingestion operations, starting
from the empty Collection. -/
def run (ops : List Op) : List CustomWorkflow :=
  ops.foldl stepOp []

/-- The loop of `WorkflowCollection.__init__` over directory files: each file
is a stem plus `some` parsed graph, or `Option.none` when reading or
deserializing raises. A failing file appends a diagnostic (second component)
and is skipped; a good one is fed to `_process`. -/
def load_from : List CustomWorkflow × List String → List (String × Option Value) →
    List CustomWorkflow × List String
  | acc, [] => acc
  | acc, f :: fs =>
    match f.2 with
    | some g =>
      load_from ((_process acc.1 { id := f.1, source := WorkflowSource.local, graph := g }).1, acc.2) fs
    | Option.none => load_from (acc.1, acc.2 ++ [f.1]) fs

/-- The initial directory load: Collection contents and diagnostic log. -/
def load_files (files : List (String × Option Value)) : List CustomWorkflow × List String :=
  load_from ([], []) files

/-- Lowercase an ASCII code point (the effect of Python `str.lower` on the
ASCII range). -/
def lowerCp (n : Nat) : Nat :=
  if 65 ≤ n ∧ n ≤ 90 then n + 32 else n

/-- Lexicographic order on code-point lists. -/
def cpsLt : List Nat → List Nat → Bool
  | [], [] => false
  | [], _ :: _ => true
  | _ :: _, [] => false
  | c :: cs, d :: ds =>
    if c < d then true
    else if d < c then false
    else cpsLt cs ds

/-- Case-insensitive string order: compare lowercased code points. -/
def ciStrLt (a b : String) : Bool :=
  cpsLt (a.data.map (fun c => lowerCp c.toNat)) (b.data.map (fun c => lowerCp c.toNat))

/-- The comparator the spec describes for the SortedView: origin enum value
ascending, then name ascending compared case-insensitively. Stated from the
spec sentence for comparison against the source's `lessThan`. -/
def lessThanSpec (l r : CustomWorkflow) : Bool :=
  if l.source = r.source then ciStrLt l.name r.name
  else decide (l.source.value < r.source.value)

/-- The per-node descriptor rule the spec states for the Parameter Extractor;
`extractSpec` at a node of a recognized type gives its one descriptor. Stated
from the spec sentences for comparison against the source's `_gather_params`. -/
def extractSpec (n : Node) : Option CustomParam :=
  if n.type = "ETN_KritaImageLayer" then
    some { kind := ParamKind.image_layer, name := n.input "name" (Value.str "Image") }
  else if n.type = "ETN_KritaMaskLayer" then
    some { kind := ParamKind.mask_layer, name := n.input "name" (Value.str "Mask") }
  else if n.type = "ETN_IntParameter" then
    some { kind := ParamKind.number_int, name := n.input "name" (Value.str "Parameter"),
           default := n.input "default" (Value.int 0),
           min := n.input "min" (Value.int (-(2 ^ 31))),
           max := n.input "max" (Value.int (2 ^ 31)) }
  else Option.none

/-- The per-key coercion rule the spec states: keep the stored value when the
key is present and its runtime kind matches the kind of the descriptor's
default, else fall back to the default. Stated from the spec sentence for
comparison against the source's `_coerce`. -/
def coerceSpecVal (params : List (Value × Value)) (t : CustomParam) : Value :=
  match dictGet params t.name with
  | some v => if vkind v = vkind t.default then v else t.default
  | Option.none => t.default

end AiDiffusion

namespace AiDiffusion

example : vkind (Value.int 3) = vkind (Value.int 7) := by decide

example : use (Value.str "x") (Value.int 0) = Value.int 0 := by decide

example :
    _coerce [(Value.str "Steps", Value.int 5), (Value.str "Extra", Value.str "x")]
      [{ kind := ParamKind.number_int, name := Value.str "Steps", default := Value.int 20 }] =
    [(Value.str "Steps", Value.int 5)] := by decide

example :
    _coerce [(Value.str "Steps", Value.str "five")]
      [{ kind := ParamKind.number_int, name := Value.str "Steps", default := Value.int 20 }] =
    [(Value.str "Steps", Value.int 20)] := by decide

example : lessThan { id := "B", source := WorkflowSource.local, graph := Value.none }
    { id := "a", source := WorkflowSource.local, graph := Value.none } = true := by decide

/-! ### Helper lemmas on `find_index` and `set_graph` -/

theorem find_index_eq_none (l : List CustomWorkflow) (i : String) :
    find_index l i = Option.none ↔ i ∉ l.map CustomWorkflow.id := by
  induction l with
  | nil => simp [find_index]
  | cons w ws ih =>
    by_cases h : w.id = i
    · simp [find_index, h]
    · simp only [find_index, h, if_false, List.map_cons, List.mem_cons]
      rw [Option.map_eq_none']
      simp [ih, h, Ne.symm h]

theorem find_index_eq_some (l : List CustomWorkflow) (i : String) (n : Nat)
    (h : find_index l i = some n) : ∃ w, l.get? n = some w ∧ w.id = i := by
  induction l generalizing n with
  | nil => simp [find_index] at h
  | cons w ws ih =>
    by_cases hw : w.id = i
    · simp only [find_index, hw, if_true, Option.some.injEq] at h
      subst h
      exact ⟨w, rfl, hw⟩
    · simp only [find_index, hw, if_false, Option.map_eq_some'] at h
      obtain ⟨m, hm, rfl⟩ := h
      obtain ⟨w0, hw0, hid⟩ := ih m hm
      exact ⟨w0, by simpa using hw0, hid⟩

theorem set_graph_map_id (l : List CustomWorkflow) (i : Nat) (g : Value) :
    (set_graph l i g).map CustomWorkflow.id = l.map CustomWorkflow.id := by
  induction l generalizing i with
  | nil => rfl
  | cons w ws ih =>
    cases i with
    | zero => simp [set_graph]
    | succ j => simp [set_graph, ih j]

theorem set_graph_get_eq (l : List CustomWorkflow) (i : Nat) (g : Value)
    (old : CustomWorkflow) (h : l.get? i = some old) :
    (set_graph l i g).get? i = some { old with graph := g } := by
  induction l generalizing i with
  | nil => simp at h
  | cons w ws ih =>
    cases i with
    | zero =>
      simp only [List.get?] at h
      cases h
      rfl
    | succ j =>
      simp only [List.get?] at h
      simpa [set_graph] using ih j h

theorem set_graph_get_ne (l : List CustomWorkflow) (i : Nat) (g : Value)
    (j : Nat) (h : j ≠ i) : (set_graph l i g).get? j = l.get? j := by
  induction l generalizing i j with
  | nil => rfl
  | cons w ws ih =>
    cases i with
    | zero =>
      cases j with
      | zero => exact absurd rfl h
      | succ k => rfl
    | succ m =>
      cases j with
      | zero => rfl
      | succ k => simpa [set_graph] using ih m k (fun hk => h (by simp [hk]))

theorem set_graph_length (l : List CustomWorkflow) (i : Nat) (g : Value) :
    (set_graph l i g).length = l.length := by
  induction l generalizing i with
  | nil => rfl
  | cons w ws ih =>
    cases i with
    | zero => simp [set_graph]
    | succ j => simp [set_graph, ih j]

theorem set_graph_mem (l : List CustomWorkflow) (i : Nat) (g : Value)
    (w : CustomWorkflow) (h : w ∈ set_graph l i g) :
    ∃ w0, w0 ∈ l ∧ w.id = w0.id ∧ w.source = w0.source ∧ w.path = w0.path := by
  induction l generalizing i with
  | nil => simp [set_graph] at h
  | cons v vs ih =>
    cases i with
    | zero =>
      rcases List.mem_cons.mp h with h0 | h0
      · exact ⟨v, List.mem_cons_self v vs, by simp [h0]⟩
      · exact ⟨w, List.mem_cons_of_mem v h0, rfl, rfl, rfl⟩
    | succ j =>
      rcases List.mem_cons.mp h with h0 | h0
      · exact ⟨v, List.mem_cons_self v vs, by simp [h0]⟩
      · obtain ⟨w0, hw0, hrest⟩ := ih j h0
        exact ⟨w0, List.mem_cons_of_mem v hw0, hrest⟩

/-! ### Evolution of the Collection's id sequence -/

theorem process_ids (l : List CustomWorkflow) (w : CustomWorkflow) :
    ((_process l w).1).map CustomWorkflow.id =
      (if w.id ∈ l.map CustomWorkflow.id then l.map CustomWorkflow.id
       else l.map CustomWorkflow.id ++ [w.id]) := by
  unfold _process
  cases hf : find_index l w.id with
  | none =>
    simp [(find_index_eq_none l w.id).mp hf]
  | some i =>
    have hmem : w.id ∈ l.map CustomWorkflow.id := by
      by_contra hmem
      simp [(find_index_eq_none l w.id).mpr hmem] at hf
    simp [set_graph_map_id, hmem]

theorem stepOp_ids (l : List CustomWorkflow) (op : Op) :
    (stepOp l op).map CustomWorkflow.id =
      (if opId op ∈ l.map CustomWorkflow.id then l.map CustomWorkflow.id
       else l.map CustomWorkflow.id ++ [opId op]) := by
  cases op with
  | file s g => exact process_ids l _
  | remote i g => exact process_ids l _
  | bindDoc i g =>
    unfold stepOp
    cases hf : find_index l i with
    | none => simp [opId, hf, (find_index_eq_none l i).mp hf]
    | some n =>
      have hmem : i ∈ l.map CustomWorkflow.id := by
        by_contra hmem
        simp [(find_index_eq_none l i).mpr hmem] at hf
      simp [opId, hf, hmem]

theorem stepOp_nodup (l : List CustomWorkflow) (op : Op)
    (h : (l.map CustomWorkflow.id).Nodup) :
    ((stepOp l op).map CustomWorkflow.id).Nodup := by
  rw [stepOp_ids]
  split
  · exact h
  · next hm => simp [List.nodup_append, h, hm]

theorem foldl_stepOp_nodup (ops : List Op) (l : List CustomWorkflow)
    (h : (l.map CustomWorkflow.id).Nodup) :
    ((ops.foldl stepOp l).map CustomWorkflow.id).Nodup := by
  induction ops generalizing l with
  | nil => exact h
  | cons op ops ih => exact ih (stepOp l op) (stepOp_nodup l op h)

theorem run_append (ops : List Op) (op : Op) :
    run (ops ++ [op]) = stepOp (run ops) op := by
  simp [run, List.foldl_append]

theorem stepOp_ids_mono (l : List CustomWorkflow) (op : Op) (i : String)
    (h : i ∈ l.map CustomWorkflow.id) : i ∈ (stepOp l op).map CustomWorkflow.id := by
  rw [stepOp_ids]
  split
  · exact h
  · exact List.mem_append_left _ h

theorem stepOp_ids_self (l : List CustomWorkflow) (op : Op) :
    opId op ∈ (stepOp l op).map CustomWorkflow.id := by
  rw [stepOp_ids]
  split
  · next hm => exact hm
  · exact List.mem_append_right _ (List.mem_singleton_self _)

theorem foldl_stepOp_ids_mono (ops : List Op) (l : List CustomWorkflow) (i : String)
    (h : i ∈ l.map CustomWorkflow.id) :
    i ∈ (ops.foldl stepOp l).map CustomWorkflow.id := by
  induction ops generalizing l with
  | nil => exact h
  | cons op ops ih => exact ih (stepOp l op) (stepOp_ids_mono l op i h)

theorem foldl_stepOp_ids_of_mem (ops : List Op) (l : List CustomWorkflow) (op : Op)
    (h : op ∈ ops) : opId op ∈ (ops.foldl stepOp l).map CustomWorkflow.id := by
  induction ops generalizing l with
  | nil => simp at h
  | cons op0 ops ih =>
    rcases List.mem_cons.mp h with h0 | h0
    · subst h0
      exact foldl_stepOp_ids_mono ops (stepOp l op) (opId op) (stepOp_ids_self l op)
    · exact ih (stepOp l op0) h0

/-! ### Claim theorems for the Collection -/

/-- C2: through every sequence of ingestion operations (initial file load,
remote ingest, document bind), the Collection never holds two workflows with
the same id, and one more operation either leaves the id sequence unchanged
(same-id arrival, updated in place) or appends the new id at the end, so a
position, once assigned, never changes. -/
theorem collection_unique_ids_stable_positions (ops : List Op) (op : Op) :
    ((run ops).map CustomWorkflow.id).Nodup ∧
    (run (ops ++ [op])).map CustomWorkflow.id =
      (if opId op ∈ (run ops).map CustomWorkflow.id then (run ops).map CustomWorkflow.id
       else (run ops).map CustomWorkflow.id ++ [opId op]) := by
  refine ⟨foldl_stepOp_nodup ops [] (by simp), ?_⟩
  rw [run_append, stepOp_ids]

/-- C3: when a workflow arrives whose id is already in the Collection,
`_process` emits a `dataChanged` notification at that entry's row, replaces
only that entry's `graph` (id, source and path stay as first recorded), leaves
every other row untouched, and keeps the length. -/
theorem process_existing_updates_graph_only (l : List CustomWorkflow)
    (w : CustomWorkflow) (i : Nat) (old : CustomWorkflow)
    (h1 : find_index l w.id = some i) (h2 : l.get? i = some old) :
    (_process l w).2 = Notif.changed i ∧
    (_process l w).1.get? i =
      some { id := old.id, source := old.source, graph := w.graph, path := old.path } ∧
    (∀ j, j ≠ i → (_process l w).1.get? j = l.get? j) ∧
    (_process l w).1.length = l.length := by
  unfold _process
  rw [h1]
  exact ⟨rfl, set_graph_get_eq l i w.graph old h2,
    fun j hj => set_graph_get_ne l i w.graph j hj, set_graph_length l i w.graph⟩

/-- C3 witness: a remote arrival for an id registered as a local workflow. -/
theorem process_existing_updates_graph_only_witness :
    find_index [{ id := "a", source := WorkflowSource.local, graph := Value.int 1 }] "a" =
      some 0 ∧
    ([{ id := "a", source := WorkflowSource.local, graph := Value.int 1 }] :
      List CustomWorkflow).get? 0 =
      some { id := "a", source := WorkflowSource.local, graph := Value.int 1 } ∧
    (_process [{ id := "a", source := WorkflowSource.local, graph := Value.int 1 }]
        { id := "a", source := WorkflowSource.remote, graph := Value.int 2 }).2 =
      Notif.changed 0 ∧
    (_process [{ id := "a", source := WorkflowSource.local, graph := Value.int 1 }]
        { id := "a", source := WorkflowSource.remote, graph := Value.int 2 }).1.get? 0 =
      some { id := "a", source := WorkflowSource.local, graph := Value.int 2 } := by
  refine ⟨by decide, by decide, ?_, ?_⟩
  · exact (process_existing_updates_graph_only
      [{ id := "a", source := WorkflowSource.local, graph := Value.int 1 }]
      { id := "a", source := WorkflowSource.remote, graph := Value.int 2 } 0
      { id := "a", source := WorkflowSource.local, graph := Value.int 1 }
      (by decide) (by decide)).1
  · exact (process_existing_updates_graph_only
      [{ id := "a", source := WorkflowSource.local, graph := Value.int 1 }]
      { id := "a", source := WorkflowSource.remote, graph := Value.int 2 } 0
      { id := "a", source := WorkflowSource.local, graph := Value.int 1 }
      (by decide) (by decide)).2.1

/-- C4 counterexample: a same-id arrival does NOT overwrite the existing
entry's origin. A workflow first registered as `local` stays `local` after a
`remote` arrival with the same id; only the graph changes. -/
theorem process_existing_keeps_origin_cex :
    ((_process [{ id := "a", source := WorkflowSource.local, graph := Value.int 1 }]
        { id := "a", source := WorkflowSource.remote, graph := Value.int 2 }).1.map
      CustomWorkflow.source) = [WorkflowSource.local] ∧
    WorkflowSource.local ≠ WorkflowSource.remote ∧
    ((_process [{ id := "a", source := WorkflowSource.local, graph := Value.int 1 }]
        { id := "a", source := WorkflowSource.remote, graph := Value.int 2 }).1.map
      CustomWorkflow.graph) = [Value.int 2] := by decide

/-- C4 amended: a same-id arrival overwrites the existing entry's graph in
place without changing its row position (the length and every other row are
untouched); the origin is NOT overwritten — it keeps its first-registration
value. -/
theorem process_existing_overwrites_graph_in_place (l : List CustomWorkflow)
    (w : CustomWorkflow) (i : Nat) (old : CustomWorkflow)
    (h1 : find_index l w.id = some i) (h2 : l.get? i = some old) :
    (∃ res, (_process l w).1.get? i = some res ∧ res.graph = w.graph ∧
      res.source = old.source ∧ res.id = old.id ∧ res.path = old.path) ∧
    (_process l w).1.length = l.length ∧
    (∀ j, j ≠ i → (_process l w).1.get? j = l.get? j) := by
  unfold _process
  rw [h1]
  exact ⟨⟨{ old with graph := w.graph }, set_graph_get_eq l i w.graph old h2,
      rfl, rfl, rfl, rfl⟩,
    set_graph_length l i w.graph, fun j hj => set_graph_get_ne l i w.graph j hj⟩

/-- C4 amended witness: a remote same-id arrival at a one-entry Collection. -/
theorem process_existing_overwrites_graph_in_place_witness :
    find_index [{ id := "a", source := WorkflowSource.local, graph := Value.int 1 }] "a" =
      some 0 ∧
    (∃ res, (_process [{ id := "a", source := WorkflowSource.local, graph := Value.int 1 }]
        { id := "a", source := WorkflowSource.remote, graph := Value.int 2 }).1.get? 0 =
          some res ∧
      res.graph = Value.int 2 ∧ res.source = WorkflowSource.local ∧ res.id = "a" ∧
      res.path = Option.none) := by
  refine ⟨by decide, ?_⟩
  obtain ⟨⟨res, hres, hg, hs, hi, hp⟩, -, -⟩ :=
    process_existing_overwrites_graph_in_place
      [{ id := "a", source := WorkflowSource.local, graph := Value.int 1 }]
      { id := "a", source := WorkflowSource.remote, graph := Value.int 2 } 0
      { id := "a", source := WorkflowSource.local, graph := Value.int 1 }
      (by decide) (by decide)
  exact ⟨res, hres, hg, hs, hi, hp⟩

/-- C5: the source's `lessThan` compares names with Python's case-sensitive
string order, not case-insensitively as the spec states. With equal origins
and names `"B"` and `"a"`, the code puts `"B"` first (code point 66 < 97)
while the case-insensitive comparator of the spec puts `"a"` first. The
`setSortCaseSensitivity(CaseInsensitive)` call in `SortedWorkflows.__init__`
shows the intent, but the overridden `lessThan` ignores that setting. -/
theorem lessThan_case_sensitive_at_mixed_case :
    lessThan { id := "B", source := WorkflowSource.local, graph := Value.none }
      { id := "a", source := WorkflowSource.local, graph := Value.none } = true ∧
    lessThanSpec { id := "B", source := WorkflowSource.local, graph := Value.none }
      { id := "a", source := WorkflowSource.local, graph := Value.none } = false ∧
    lessThanSpec { id := "a", source := WorkflowSource.local, graph := Value.none }
      { id := "B", source := WorkflowSource.local, graph := Value.none } = true := by decide

/-- C6: selecting an id that is not in the Collection. On the EMPTY Collection
the code raises `IndexError`: `_set_workflow_id` passes the invalid index
(row `-1`) to `_update_workflow`, which evaluates `self._workflows[-1]` on an
empty list. On a non-empty Collection the same call completes and only
records the id (Python's negative indexing accidentally reads the last entry,
whose id cannot match the absent id). -/
theorem select_absent_id_on_empty_collection_errors :
    find_index [] "foo" = Option.none ∧
    _set_workflow_id (fun _ => []) {} [] "foo" = Option.none ∧
    find_index [{ id := "a", source := WorkflowSource.local, graph := Value.none }] "foo" =
      Option.none ∧
    _set_workflow_id (fun _ => []) {}
      [{ id := "a", source := WorkflowSource.local, graph := Value.none }] "foo" =
      some { workflow_id := "foo" } := by decide

/-! ### No entry ever records a source path -/

theorem process_path (l : List CustomWorkflow) (w0 : CustomWorkflow)
    (h : ∀ w ∈ l, w.path = Option.none) (h0 : w0.path = Option.none) :
    ∀ w ∈ (_process l w0).1, w.path = Option.none := by
  unfold _process
  cases hf : find_index l w0.id with
  | none =>
    intro w hw
    rcases List.mem_append.mp hw with hw | hw
    · exact h w hw
    · rw [List.mem_singleton.mp hw]
      exact h0
  | some i =>
    intro w hw
    obtain ⟨w1, hw1, _, _, hpath⟩ := set_graph_mem l i w0.graph w hw
    rw [hpath]
    exact h w1 hw1

theorem stepOp_path (l : List CustomWorkflow) (op : Op)
    (h : ∀ w ∈ l, w.path = Option.none) :
    ∀ w ∈ stepOp l op, w.path = Option.none := by
  cases op with
  | file s g => exact process_path l _ h rfl
  | remote i g => exact process_path l _ h rfl
  | bindDoc i g =>
    simp only [stepOp]
    cases hf : find_index l i with
    | none =>
      intro w hw
      rcases List.mem_append.mp hw with hw | hw
      · exact h w hw
      · rw [List.mem_singleton.mp hw]
    | some n => exact h

/-- C10: every workflow the program inserts into the Collection — via the
directory scan, a remote publication or a document bind — has an absent
`path` (`None`); no entry records a handle to a backing file. -/
theorem collection_entries_have_no_path (ops : List Op) :
    ∀ w ∈ run ops, w.path = Option.none := by
  have aux : ∀ (ops0 : List Op) (l : List CustomWorkflow),
      (∀ w ∈ l, w.path = Option.none) →
      ∀ w ∈ ops0.foldl stepOp l, w.path = Option.none := by
    intro ops0
    induction ops0 with
    | nil => intro l h; exact h
    | cons op ops0 ih => intro l h; exact ih (stepOp l op) (stepOp_path l op h)
  exact aux ops [] (by simp)

/-- C10 witness: the entry loaded from a local file has no path. -/
theorem collection_entries_have_no_path_witness :
    ({ id := "a", source := WorkflowSource.local, graph := Value.int 0 } :
      CustomWorkflow) ∈ run [Op.file "a" (Value.int 0)] ∧
    ({ id := "a", source := WorkflowSource.local, graph := Value.int 0 } :
      CustomWorkflow).path = Option.none :=
  ⟨by decide, collection_entries_have_no_path [Op.file "a" (Value.int 0)]
    { id := "a", source := WorkflowSource.local, graph := Value.int 0 } (by decide)⟩

/-- C7: `_gather_params` traverses the nodes in order and yields exactly the
descriptors `extractSpec` describes — one per node of a recognized type
(image layer named by the `name` input or `"Image"`; mask layer named by the
`name` input or `"Mask"`; integer parameter named by the `name` input or
`"Parameter"` with `default`, `min`, `max` from the inputs or `0`, `-2^31`,
`2^31`) — and nothing for any other node type. -/
theorem gather_params_eq_extract_spec (w : List Node) :
    _gather_params w = w.filterMap extractSpec := by
  induction w with
  | nil => rfl
  | cons n ns ih =>
    simp only [_gather_params, List.filterMap_cons, extractSpec]
    by_cases h1 : n.type = "ETN_KritaImageLayer"
    · simp [h1, ih]
    · by_cases h2 : n.type = "ETN_KritaMaskLayer"
      · simp [h1, h2, ih]
      · by_cases h3 : n.type = "ETN_IntParameter"
        · simp [h1, h2, h3, ih]
        · simp [h1, h2, h3, ih]

/-! ### The initial directory load -/

theorem load_from_fst (files : List (String × Option Value)) :
    ∀ acc : List CustomWorkflow × List String,
      (load_from acc files).1 =
        List.foldl stepOp acc.1
          (files.filterMap (fun f => f.2.map (fun g => Op.file f.1 g))) := by
  induction files with
  | nil => intro acc; rfl
  | cons f fs ih =>
    obtain ⟨s, c⟩ := f
    cases c with
    | none =>
      intro acc
      simp only [load_from, List.filterMap_cons, Option.map_none']
      exact ih _
    | some g =>
      intro acc
      simp only [load_from, List.filterMap_cons, Option.map_some']
      rw [ih]
      rfl

theorem load_from_snd (files : List (String × Option Value)) :
    ∀ acc : List CustomWorkflow × List String,
      (load_from acc files).2 =
        acc.2 ++ (files.filter (fun f => f.2.isNone)).map Prod.fst := by
  induction files with
  | nil => intro acc; simp [load_from]
  | cons f fs ih =>
    obtain ⟨s, c⟩ := f
    cases c with
    | none =>
      intro acc
      simp only [load_from]
      rw [ih]
      simp [List.filter_cons, Option.isNone]
    | some g =>
      intro acc
      simp only [load_from]
      rw [ih]
      simp [List.filter_cons, Option.isNone]

theorem load_files_mem_id (files : List (String × Option Value)) (s : String) (g : Value)
    (h : (s, some g) ∈ files) :
    s ∈ ((load_files files).1).map CustomWorkflow.id := by
  rw [load_files, load_from_fst]
  have hop : Op.file s g ∈ files.filterMap (fun f => f.2.map (fun g => Op.file f.1 g)) :=
    List.mem_filterMap.mpr ⟨(s, some g), h, rfl⟩
  simpa [opId] using foldl_stepOp_ids_of_mem _ [] _ hop

/-- C8: during the initial directory load, a file that cannot be read or
deserialized only contributes a diagnostic and is skipped: the resulting
Collection equals the run over exactly the readable files, the diagnostic log
names exactly the failing files, and every valid file leaves an entry with
its stem as id — the load never aborts. -/
theorem load_files_skips_bad_files (files : List (String × Option Value)) :
    (load_files files).1 =
      run (files.filterMap (fun f => f.2.map (fun g => Op.file f.1 g))) ∧
    (load_files files).2 = (files.filter (fun f => f.2.isNone)).map Prod.fst ∧
    ∀ s g, (s, some g) ∈ files → ∃ w ∈ (load_files files).1, w.id = s := by
  refine ⟨?_, ?_, ?_⟩
  · rw [load_files, load_from_fst]
    rfl
  · rw [load_files, load_from_snd]
    simp
  · intro s g h
    exact List.mem_map.mp (load_files_mem_id files s g h)

/-- C8 witness: one valid and one corrupt file; the valid one is loaded, the
corrupt one is logged. -/
theorem load_files_skips_bad_files_witness :
    (("good", some (Value.int 1)) ∈
      ([("good", some (Value.int 1)), ("bad", Option.none)] :
        List (String × Option Value))) ∧
    ∃ w ∈ (load_files [("good", some (Value.int 1)), ("bad", Option.none)]).1,
      w.id = "good" :=
  ⟨by decide,
    (load_files_skips_bad_files [("good", some (Value.int 1)), ("bad", Option.none)]).2.2
      "good" (Value.int 1) (by decide)⟩

/-! ### Parameter coercion -/

theorem use_eq_spec (v d : Value) : use v d = if vkind v = vkind d then v else d := by
  cases v <;> cases d <;> simp [use, vkind]

theorem use_none_eq (d : Value) : use Value.none d = d := by
  cases d <;> simp [use, vkind]

theorem use_val_eq_spec (params : List (Value × Value)) (t : CustomParam) :
    use ((dictGet params t.name).getD Value.none) t.default = coerceSpecVal params t := by
  cases h : dictGet params t.name with
  | none => simp [h, coerceSpecVal, use_none_eq]
  | some v => simp [h, coerceSpecVal, use_eq_spec]

theorem dictGet_append_of_none (d e : List (Value × Value)) (k : Value)
    (h : dictGet d k = Option.none) : dictGet (d ++ e) k = dictGet e k := by
  induction d with
  | nil => rfl
  | cons p ps ih =>
    by_cases hp : p.1 = k
    · simp [dictGet, hp] at h
    · simp only [dictGet, hp, if_false] at h ⊢
      exact ih h

theorem dictSet_append (d : List (Value × Value)) (k v : Value)
    (h : dictGet d k = Option.none) : dictSet d k v = d ++ [(k, v)] := by
  induction d with
  | nil => rfl
  | cons p ps ih =>
    by_cases hp : p.1 = k
    · simp [dictGet, hp] at h
    · simp only [dictGet, hp, if_false] at h
      simp [dictSet, hp, ih h]

theorem coerce_foldl_eq_map (params : List (Value × Value)) :
    ∀ (schema : List CustomParam) (d : List (Value × Value)),
      (∀ t ∈ schema, dictGet d t.name = Option.none) →
      (schema.map CustomParam.name).Nodup →
      List.foldl
        (fun d t => dictSet d t.name (use ((dictGet params t.name).getD Value.none) t.default))
        d schema =
      d ++ schema.map (fun t => (t.name, coerceSpecVal params t)) := by
  intro schema
  induction schema with
  | nil => intro d _ _; simp
  | cons t ts ih =>
    intro d hd hnodup
    simp only [List.foldl_cons]
    rw [dictSet_append d t.name _ (hd t (List.mem_cons_self t ts)), use_val_eq_spec]
    rw [ih (d ++ [(t.name, coerceSpecVal params t)]) ?_ (List.nodup_cons.mp hnodup).2]
    · simp
    · intro u hu
      have h1 : dictGet d u.name = Option.none := hd u (List.mem_cons_of_mem t hu)
      have h2 : t.name ≠ u.name := by
        intro he
        exact (List.nodup_cons.mp hnodup).1 (he ▸ List.mem_map.mpr ⟨u, hu, rfl⟩)
      rw [dictGet_append_of_none d _ u.name h1]
      simp [dictGet, h2]

theorem coerce_eq_map (params : List (Value × Value)) (schema : List CustomParam)
    (h : (schema.map CustomParam.name).Nodup) :
    _coerce params schema = schema.map (fun t => (t.name, coerceSpecVal params t)) := by
  have := coerce_foldl_eq_map params schema [] (fun t _ => rfl) h
  simpa [_coerce] using this

theorem dictGet_map_of_mem (params : List (Value × Value)) (schema : List CustomParam)
    (h : (schema.map CustomParam.name).Nodup) (t : CustomParam) (ht : t ∈ schema) :
    dictGet (schema.map (fun t => (t.name, coerceSpecVal params t))) t.name =
      some (coerceSpecVal params t) := by
  induction schema with
  | nil => simp at ht
  | cons u us ih =>
    rcases List.mem_cons.mp ht with h0 | h0
    · subst h0
      simp [dictGet]
    · have hne : u.name ≠ t.name := by
        intro he
        exact (List.nodup_cons.mp h).1 (he ▸ List.mem_map.mpr ⟨t, h0, rfl⟩)
      simp only [List.map_cons, dictGet, hne, if_false]
      exact ih (List.nodup_cons.mp h).2 h0

theorem dictGet_map_of_not_mem (params : List (Value × Value)) (schema : List CustomParam)
    (k : Value) (hk : k ∉ schema.map CustomParam.name) :
    dictGet (schema.map (fun t => (t.name, coerceSpecVal params t))) k = Option.none := by
  induction schema with
  | nil => rfl
  | cons u us ih =>
    simp only [List.map_cons, List.mem_cons, not_or] at hk
    simp only [List.map_cons, dictGet]
    rw [if_neg (fun he => hk.1 he.symm)]
    exact ih hk.2

/-- C1: for a schema with pairwise-distinct descriptor names (duplicate names
make the claim's key-to-descriptor rule ill-posed; the spec records them as a
known gap), `_coerce` returns a dict whose keys are exactly the descriptor
names in schema order; each name maps to the stored value when present with
exactly matching runtime kind, else to the descriptor's default
(`coerceSpecVal`); keys of the prior params not named by a descriptor are
dropped. -/
theorem coerce_keys_and_values (params : List (Value × Value)) (schema : List CustomParam)
    (h : (schema.map CustomParam.name).Nodup) :
    ((_coerce params schema).map Prod.fst = schema.map CustomParam.name) ∧
    (∀ t ∈ schema, dictGet (_coerce params schema) t.name = some (coerceSpecVal params t)) ∧
    (∀ k, k ∉ schema.map CustomParam.name → dictGet (_coerce params schema) k = Option.none) := by
  refine ⟨?_, ?_, ?_⟩
  · rw [coerce_eq_map params schema h]
    simp
  · intro t ht
    rw [coerce_eq_map params schema h]
    exact dictGet_map_of_mem params schema h t ht
  · intro k hk
    rw [coerce_eq_map params schema h]
    exact dictGet_map_of_not_mem params schema k hk

/-- C1 counterexample: with two descriptors sharing the name `"x"` (defaults
`0` and `5`) and no stored params, the output key `"x"` maps to `5` — the last
same-named descriptor wins in the dict comprehension — so the key does not
map to the first `"x"` descriptor's default `0` as the claim's per-descriptor
rule requires. -/
theorem coerce_duplicate_names_cex :
    dictGet
      (_coerce []
        [{ kind := ParamKind.number_int, name := Value.str "x", default := Value.int 0 },
         { kind := ParamKind.number_int, name := Value.str "x", default := Value.int 5 }])
      (Value.str "x") = some (Value.int 5) ∧
    Value.int 5 ≠ Value.int 0 ∧
    dictGet [] (Value.str "x") = Option.none := by decide

/-- C1 witness: a schema with one int descriptor, stored params holding a
kind-matching value plus an extra key. -/
theorem coerce_keys_and_values_witness :
    (([{ kind := ParamKind.number_int, name := Value.str "Steps", default := Value.int 20 }] :
        List CustomParam).map CustomParam.name).Nodup ∧
    (_coerce [(Value.str "Steps", Value.int 5), (Value.str "Extra", Value.str "x")]
        [{ kind := ParamKind.number_int, name := Value.str "Steps",
           default := Value.int 20 }]).map Prod.fst =
      ([{ kind := ParamKind.number_int, name := Value.str "Steps", default := Value.int 20 }] :
        List CustomParam).map CustomParam.name :=
  ⟨by decide,
    (coerce_keys_and_values [(Value.str "Steps", Value.int 5), (Value.str "Extra", Value.str "x")]
      [{ kind := ParamKind.number_int, name := Value.str "Steps", default := Value.int 20 }]
      (by decide)).1⟩

/-- C9 counterexample: with a graph declaring an image layer named `"x"` and
then an integer parameter also named `"x"`, the coerced output maps `"x"` to
the integer default `0`, not to `None` — the later same-named descriptor
overwrites the layer descriptor's entry in the dict comprehension. -/
theorem coerce_layer_name_shadowed_cex :
    (_gather_params
        [{ type := "ETN_KritaImageLayer", inputs := [("name", Value.str "x")] },
         { type := "ETN_IntParameter", inputs := [("name", Value.str "x")] }]).head? =
      some { kind := ParamKind.image_layer, name := Value.str "x" } ∧
    dictGet
      (_coerce []
        (_gather_params
          [{ type := "ETN_KritaImageLayer", inputs := [("name", Value.str "x")] },
           { type := "ETN_IntParameter", inputs := [("name", Value.str "x")] }]))
      (Value.str "x") = some (Value.int 0) ∧
    some (Value.int 0) ≠ some Value.none := by decide

theorem gather_layer_default (w : List Node) :
    ∀ t ∈ _gather_params w,
      (t.kind = ParamKind.image_layer ∨ t.kind = ParamKind.mask_layer) →
      t.default = Value.none := by
  induction w with
  | nil => simp [_gather_params]
  | cons n ns ih =>
    intro t ht hk
    simp only [_gather_params] at ht
    rcases List.mem_append.mp ht with h0 | h0
    · by_cases h1 : n.type = "ETN_KritaImageLayer"
      · simp only [h1, if_true] at h0
        rw [List.mem_singleton.mp h0]
      · by_cases h2 : n.type = "ETN_KritaMaskLayer"
        · simp only [h1, h2, if_true, if_false] at h0
          rw [List.mem_singleton.mp h0]
        · by_cases h3 : n.type = "ETN_IntParameter"
          · simp only [h1, h2, h3, if_true, if_false] at h0
            rw [List.mem_singleton.mp h0] at hk
            simp at hk
          · simp [h1, h2, h3] at h0
    · exact ih t h0 hk

theorem coerceSpecVal_default_none (params : List (Value × Value)) (t : CustomParam)
    (h : t.default = Value.none) : coerceSpecVal params t = Value.none := by
  unfold coerceSpecVal
  cases hg : dictGet params t.name with
  | none => exact h
  | some v =>
    rw [h]
    cases v <;> simp [vkind]

/-- C9 amended: provided the extracted schema's descriptor names are pairwise
distinct (duplicate names let a later descriptor overwrite the entry, as the
counterexample shows), the coerced output maps the name of every image_layer
or mask_layer descriptor to `None`: such descriptors carry no default, and no
stored non-null value's runtime kind equals the kind of an absent default. -/
theorem coerce_layer_params_absent (params : List (Value × Value)) (w : List Node)
    (h : ((_gather_params w).map CustomParam.name).Nodup) :
    ∀ t ∈ _gather_params w,
      (t.kind = ParamKind.image_layer ∨ t.kind = ParamKind.mask_layer) →
      dictGet (_coerce params (_gather_params w)) t.name = some Value.none := by
  intro t ht hk
  rw [coerce_eq_map params _ h, dictGet_map_of_mem params _ h t ht,
    coerceSpecVal_default_none params t (gather_layer_default w t ht hk)]

/-- C9 amended witness: a single image-layer node; the coerced value at its
name is `None` even when the prior params held a value there. -/
theorem coerce_layer_params_absent_witness :
    ((_gather_params [{ type := "ETN_KritaImageLayer", inputs := [] }]).map
      CustomParam.name).Nodup ∧
    dictGet
      (_coerce [(Value.str "Image", Value.int 7)]
        (_gather_params [{ type := "ETN_KritaImageLayer", inputs := [] }]))
      (Value.str "Image") = some Value.none :=
  ⟨by decide,
    coerce_layer_params_absent [(Value.str "Image", Value.int 7)]
      [{ type := "ETN_KritaImageLayer", inputs := [] }] (by decide)
      { kind := ParamKind.image_layer, name := Value.str "Image" } (by decide) (by decide)⟩

end AiDiffusion
